import Mathlib

/-!
Verification development for the InnoMcModpack deployment scripts.

The repository contains two deployment backends sharing one reconciliation
design:
* `deploy_smart.py` — a direct-API backend (paramiko SFTP): one remote call
  per file operation;
* `deploy_rsync.py` — a bulk-command backend (ssh/rsync): batched shell-level
  deletes plus a mirroring transfer command.

Both fingerprint the local `build/server` tree into a mapping
`relative/path ↦ {hash, size}`, read the previously published manifest
`deploy_manifest.json` from the remote target, diff the two, delete the
manifest paths that vanished locally, upload what is new or changed, and
finally write the fresh local mapping as the new manifest.

This file shallowly embeds those scripts: Python dicts become association
lists with dict lookup semantics, filesystem walking becomes a recursion over
an explicit directory tree whose leaves carry their (MD5 digest, byte size)
fingerprint, remote SFTP/ssh operations become entries of an explicit
operation trace, and the outcome of each fallible remote operation is an
oracle parameter.
-/

/-! ## Data model: `{ 'relative/path': {'hash': ..., 'size': ...} }` -/

/-- The value stored per relative path by `get_local_files_info` and in the
manifest: MD5 content digest and byte size. -/
structure FileInfo where
  hash : String
  size : Nat
deriving DecidableEq, Repr

/-- A Python dict from relative path to `FileInfo`, as an insertion-ordered
association list.  Real dicts never hold a key twice; where a theorem needs
that invariant it assumes `NodupKeys`. -/
abbrev StateMapping := List (String × FileInfo)

/-- Dict lookup (`m[k]`); the later of two bindings of the same key wins,
matching Python dict assignment and `json` duplicate-key handling. -/
def lookup? : StateMapping → String → Option FileInfo
  | [], _ => none
  | (k, v) :: rest, key =>
    match lookup? rest key with
    | some r => some r
    | none => if k = key then some v else none

/-- Python `key in dict`. -/
def hasKey (m : StateMapping) (p : String) : Bool :=
  (lookup? m p).isSome

/-- The keys of a mapping, in insertion order. -/
def keys (m : StateMapping) : List String :=
  m.map Prod.fst

/-- The dict invariant: every key is bound at most once. -/
def NodupKeys (m : StateMapping) : Prop :=
  (m.map Prod.fst).Nodup

instance (m : StateMapping) : Decidable (NodupKeys m) := by
  unfold NodupKeys; infer_instance

/-! ## Local filesystem model and the two fingerprinters

`get_local_files_info` appears once in each script.  Both walk the local tree
with `os.walk`, form '/'-separated relative paths, skip the root-level
manifest file, and record each regular file's MD5 digest (`calculate_hash`,
a streaming digest over 4096-byte chunks) and `os.stat` size.  The tree model
below carries that fingerprint data at each file leaf, so the walk and the
relative-path arithmetic are what is embedded.

The single behavioural difference between the two copies: the rsync variant
first checks `os.path.exists(base_dir)` and exits fatally when the base
directory is missing, while the smart variant walks unconditionally — and
`os.walk` over a nonexistent directory silently yields nothing. -/

/-- A node of the local build tree; a file leaf carries its content digest
and byte size. -/
inductive Entry where
  | file (name : String) (hash : String) (size : Nat)
  | dir (name : String) (entries : List Entry)

/-- `MANIFEST_FILENAME = 'deploy_manifest.json'` (identical in both
scripts). -/
def MANIFEST_FILENAME : String := "deploy_manifest.json"

namespace DeploySmart

mutual

/-- Walk of one entry under relative-path accumulator `pre`, as performed by
the `os.walk` loop of `deploy_smart.get_local_files_info`. -/
def walkEntry (pre : String) : Entry → List (String × FileInfo)
  | .file name h s => [(pre ++ name, ⟨h, s⟩)]
  | .dir name es => walkEntries (pre ++ name ++ "/") es

/-- Walk of a directory's entry list (see `walkEntry`). -/
def walkEntries (pre : String) : List Entry → List (String × FileInfo)
  | [] => []
  | e :: es => walkEntry pre e ++ walkEntries pre es

end

/-- `deploy_smart.get_local_files_info(base_dir)`:  no existence check — a
missing base directory makes `os.walk` yield nothing, so the result is the
empty mapping.  Root-level `deploy_manifest.json` is skipped. -/
def get_local_files_info (fs : Option (List Entry)) : StateMapping :=
  match fs with
  | none => []
  | some es => (walkEntries "" es).filter (fun pi => pi.1 ≠ MANIFEST_FILENAME)

end DeploySmart

namespace DeployRsync

mutual

/-- Walk of one entry under relative-path accumulator `pre`, as performed by
the `os.walk` loop of `deploy_rsync.get_local_files_info`. -/
def walkEntry (pre : String) : Entry → List (String × FileInfo)
  | .file name h s => [(pre ++ name, ⟨h, s⟩)]
  | .dir name es => walkEntries (pre ++ name ++ "/") es

/-- Walk of a directory's entry list (see `walkEntry`). -/
def walkEntries (pre : String) : List Entry → List (String × FileInfo)
  | [] => []
  | e :: es => walkEntry pre e ++ walkEntries pre es

end

/-- `deploy_rsync.get_local_files_info(base_dir)`:  `sys.exit(1)` (modelled
as `.error ()`) when the base directory does not exist; otherwise the same
walk as the smart variant. -/
def get_local_files_info (fs : Option (List Entry)) :
    Except Unit StateMapping :=
  match fs with
  | none => .error ()
  | some es =>
    .ok ((walkEntries "" es).filter (fun pi => pi.1 ≠ MANIFEST_FILENAME))

end DeployRsync

/-! ## The reconciliation plan (`deploy_smart.main`, steps 3–4)

`files_to_upload` embeds the loop

    for rel_path, info in local_state.items():
        if rel_path not in remote_state: need_upload = True
        elif force_full: need_upload = True
        elif remote_state[rel_path]['hash'] != info['hash']: need_upload = True

and `files_to_delete` the loop (textually duplicated in `deploy_rsync.main`)

    for rel_path in remote_state:
        if rel_path not in local_state: files_to_delete.append(rel_path)
-/

/-- The per-file upload decision of `deploy_smart.main` step 3. -/
def need_upload (remote_state : StateMapping) (force_full : Bool)
    (rel_path : String) (info : FileInfo) : Bool :=
  match lookup? remote_state rel_path with
  | none => true
  | some rinfo => force_full || rinfo.hash ≠ info.hash

/-- The upload list of `deploy_smart.main` step 3, in local insertion
order. -/
def files_to_upload (local_state remote_state : StateMapping)
    (force_full : Bool) : List String :=
  (local_state.filter
      (fun pi => need_upload remote_state force_full pi.1 pi.2)).map Prod.fst

/-- The deletion list ("Safe Delete") of `deploy_smart.main` step 4 and
`deploy_rsync.main` step 3: manifest paths absent from the local state. -/
def files_to_delete (local_state remote_state : StateMapping) :
    List String :=
  (remote_state.filter (fun pi => ¬ hasKey local_state pi.1)).map Prod.fst

/-! ## Remote operation traces

A run is modelled as the sequence of remote operations it issues, together
with whether it finished without a fatal error and, when written, the
content of the freshly written manifest.  Fallible remote operations are
decided by oracle parameters (one Bool per path / batch / command). -/

/-- The mutating SFTP operations `deploy_smart.main` can issue, keyed by
relative path (every remote path in the script is `REMOTE_BASE_DIR`
prepended to a relative path).  A `remove` records whether the attempt
raised `IOError` (which the script catches and logs). -/
inductive SOp where
  | remove (relPath : String) (failed : Bool)
  | mkdirs (relPath : String)
  | put (relPath : String)
  | putManifest
deriving DecidableEq, Repr

/-- The remote commands `deploy_rsync.main` issues, in order. -/
inductive ROp where
  | mkdirBase
  | catManifest
  | rmBatch (relPaths : List String)
  | rsyncAll
  | rsyncManifest
deriving DecidableEq, Repr

/-- Outcome of one run: the issued remote operations, whether the process
finished without a fatal error, and the mapping written as the new remote
manifest (`none` when no manifest was written). -/
structure RunLog (op : Type) where
  ops : List op
  ok : Bool
  manifest : Option StateMapping
deriving Repr

namespace DeploySmart

/-- `deploy_smart.main` step 6, the upload loop: per file, `sftp.stat` the
remote path and run `ensure_remote_dir` when it is absent (`statOk` decides
the stat), then `sftp.put`; an upload failure re-raises (`raise e`), so the
loop stops at the first failing file.  Returns the issued operations and
whether every planned upload succeeded. -/
def uploadLoop (statOk uploadFails : String → Bool) :
    List String → List SOp × Bool
  | [] => ([], true)
  | p :: rest =>
    let pre := if statOk p then [] else [SOp.mkdirs p]
    if uploadFails p then (pre ++ [SOp.put p], false)
    else
      let r := uploadLoop statOk uploadFails rest
      (pre ++ SOp.put p :: r.1, r.2)

/-- `deploy_smart.main` steps 3–7 after the remote manifest has been read
into `remote_state`:  plan, delete (each failure caught, logged and
skipped), upload (first failure fatal), and — only when every upload
succeeded — write `local_state` as the new manifest.  A manifest-write
failure is caught and merely logged, so the process still exits
successfully. -/
def smart_core (local_state remote_state : StateMapping) (force_full : Bool)
    (deleteFails statOk uploadFails : String → Bool)
    (manifestPutFails : Bool) : RunLog SOp :=
  let dels := files_to_delete local_state remote_state
  let ups := files_to_upload local_state remote_state force_full
  let delOps := dels.map (fun p => SOp.remove p (deleteFails p))
  let up := uploadLoop statOk uploadFails ups
  if up.2 then
    { ops := delOps ++ up.1 ++ [SOp.putManifest]
      ok := true
      manifest := if manifestPutFails then none else some local_state }
  else
    { ops := delOps ++ up.1
      ok := false
      manifest := none }

/-- `deploy_smart.main` from the local filesystem scan onward (step 1 feeds
step 3): note the absence of any existence check on the local base
directory. -/
def smart_run (fs : Option (List Entry)) (remote_state : StateMapping)
    (force_full : Bool) (deleteFails statOk uploadFails : String → Bool)
    (manifestPutFails : Bool) : RunLog SOp :=
  smart_core (get_local_files_info fs) remote_state force_full
    deleteFails statOk uploadFails manifestPutFails

end DeploySmart

namespace DeployRsync

/-- `batch_size = 50` in `deploy_rsync.main` step 4. -/
def batch_size : Nat := 50

/-- The slicing `files_to_delete[i:i+batch_size]` for
`i in range(0, len(files_to_delete), batch_size)`. -/
def toBatches : List String → List (List String)
  | [] => []
  | p :: rest =>
    (p :: rest.take (batch_size - 1)) :: toBatches (rest.drop (batch_size - 1))
termination_by l => l.length
decreasing_by simp [List.length_drop]; omega

/-- `deploy_rsync.main` step 4's loop body: one `ssh … rm -f <batch>` per
batch, executed with `check=True`, so a failing batch calls `sys.exit` and
nothing later runs. -/
def rmBatchLoop (batchFails : List String → Bool) :
    List (List String) → List ROp × Bool
  | [] => ([], true)
  | b :: rest =>
    if batchFails b then ([ROp.rmBatch b], false)
    else
      let r := rmBatchLoop batchFails rest
      (ROp.rmBatch b :: r.1, r.2)

/-- `deploy_rsync.main` after configuration validation, with the remote
manifest parse result given as `remote_state`:  scan local files (fatal exit
when the build tree is missing, before any remote command), `mkdir -p` the
target, `cat` the manifest, delete in batches (any batch failure fatal),
mirror via one `rsync` call (`check=True`, no `--delete`), and upload the
new manifest via a second `rsync` call (`check=True`). -/
def rsync_run (fs : Option (List Entry)) (remote_state : StateMapping)
    (mkdirFails : Bool) (batchFails : List String → Bool)
    (rsyncFails manifestUpFails : Bool) : RunLog ROp :=
  match fs with
  | none => { ops := [], ok := false, manifest := none }
  | some es =>
    match get_local_files_info (some es) with
    | .error _ => { ops := [], ok := false, manifest := none }
    | .ok local_state =>
      if mkdirFails then
        { ops := [ROp.mkdirBase], ok := false, manifest := none }
      else
        let dels := files_to_delete local_state remote_state
        let rm := rmBatchLoop batchFails (toBatches dels)
        let base := ROp.mkdirBase :: ROp.catManifest :: rm.1
        if !rm.2 then
          { ops := base, ok := false, manifest := none }
        else if rsyncFails then
          { ops := base ++ [ROp.rsyncAll], ok := false, manifest := none }
        else if manifestUpFails then
          { ops := base ++ [ROp.rsyncAll, ROp.rsyncManifest]
            ok := false, manifest := none }
        else
          { ops := base ++ [ROp.rsyncAll, ROp.rsyncManifest]
            ok := true, manifest := some local_state }

end DeployRsync

/-! ## Progress reporter (`deploy_smart.create_progress_callback`)

The closure created per upload holds `start_time` and `last_log_time`
(initialised to `start_time`); each `(transferred, total)` callback reads the
clock and logs iff `current_time - last_log_time > 5 or transferred ==
total`, with the percentage division guarded by `total > 0`, the speed
division guarded by `elapsed > 0`, and `last_log_time` updated only when a
line is logged.  Clock readings are modelled as rationals. -/

/-- The closure state of `create_progress_callback`. -/
structure CallbackState where
  start_time : ℚ
  last_log_time : ℚ

/-- The data interpolated into one emitted status line. -/
structure LogLine where
  percentage : ℚ
  transferred : Nat
  total : Nat
  speed : ℚ

/-- One invocation of the `progress_callback` closure at clock reading
`current_time`: the emitted line (if any) and the updated closure state. -/
def progress_callback (st : CallbackState) (transferred total : Nat)
    (current_time : ℚ) : Option LogLine × CallbackState :=
  if current_time - st.last_log_time > 5 ∨ transferred = total then
    let percentage : ℚ :=
      if total > 0 then (transferred : ℚ) / (total : ℚ) * 100 else 0
    let elapsed := current_time - st.start_time
    let speed : ℚ :=
      if elapsed > 0 then ((transferred : ℚ) / 1024 / 1024) / elapsed else 0
    (some ⟨percentage, transferred, total, speed⟩,
     ⟨st.start_time, current_time⟩)
  else
    (none, st)

/-- A whole sequence of callbacks during one upload, from the closure state
`create_progress_callback` builds (`last_log_time = start_time`): the list of
emitted lines, in order. -/
def progress_callback_trace (start_time : ℚ)
    (events : List (Nat × Nat × ℚ)) : List LogLine :=
  (events.foldl
    (fun acc ev =>
      let r := progress_callback acc.2 ev.1 ev.2.1 ev.2.2
      (acc.1 ++ r.1.toList, r.2))
    (([] : List LogLine), ⟨start_time, start_time⟩)).1

/-! ## The manifest blob as parsed JSON (`deploy_smart.main`, step 2)

    try:
        with sftp.open(manifest_path, 'r') as f:
            remote_state = json.load(f)
        logger.info(f"... Known remote files: {len(remote_state)}")
    except (IOError, json.JSONDecodeError):
        logger.warning("Remote manifest not found or invalid. ...")

Only `IOError` (blob unreadable) and `json.JSONDecodeError` (syntactically
invalid JSON) are caught; a blob that decodes to any JSON value at all is
used as `remote_state` unchecked, and the subsequent dynamically-typed
operations on it (`len`, `in`, subscripting, iteration) may raise uncaught
`TypeError`/`KeyError`.  `deploy_rsync.main` has the same structure (a
returncode test for "not found", a bare `json.JSONDecodeError` handler, and
an unchecked use of the decoded value).  The JSON value universe and those
dynamic operations are embedded below. -/

/-- A decoded JSON value (`json.load` result).  Numbers are modelled as
integers; the scripts only ever produce integer `size` fields and no claim
depends on non-integer numerics. -/
inductive JsonVal where
  | null
  | bool (b : Bool)
  | num (n : Int)
  | str (s : String)
  | arr (elems : List JsonVal)
  | obj (fields : List (String × JsonVal))

/-- An uncaught Python exception raised while using the decoded value. -/
inductive PyErr where
  | typeError
  | keyError
deriving DecidableEq, Repr

/-- Whether `len(v)` succeeds: dicts, lists and strings have a length;
`len` of a number, bool or None raises `TypeError`. -/
def JsonVal.hasLen : JsonVal → Bool
  | .obj _ => true
  | .arr _ => true
  | .str _ => true
  | _ => false

/-- `deploy_smart.main` step 2 as a whole: the value bound to
`remote_state` afterwards, or the uncaught `TypeError` from the
`len(remote_state)` log line inside the `try` block.  `none` = the blob
could not be read (`IOError`), `some none` = it was read but is not
syntactically valid JSON (`json.JSONDecodeError`), `some (some j)` = it
decoded to `j`. -/
def smart_load_remote : Option (Option JsonVal) → Except PyErr JsonVal
  | none => .ok (.obj [])
  | some none => .ok (.obj [])
  | some (some j) => if j.hasLen then .ok j else .error .typeError

/-- Dict lookup inside a decoded JSON object; as with `lookup?`, the last
binding of a duplicated key wins (matching `json.loads`). -/
def lookupJson : List (String × JsonVal) → String → Option JsonVal
  | [], _ => none
  | (k, v) :: rest, key =>
    match lookupJson rest key with
    | some r => some r
    | none => if k = key then some v else none

/-- Boolean substring test on character lists (Python `needle in hay` for
strings). -/
def charsContain (needle : List Char) : List Char → Bool
  | [] => needle.isEmpty
  | c :: rest => needle.isPrefixOf (c :: rest) || charsContain needle rest

/-- Python `==` between a decoded JSON value and a `str`: only a string
compares equal to a string; values of other types are unequal, without
error. -/
def pyEqStr (v : JsonVal) (s : String) : Bool :=
  match v with
  | .str t => t = s
  | _ => false

/-- Python `rel_path in remote_state` for a `str` rel_path: key membership
for a dict, element membership for a list, substring test for a string,
`TypeError` for a number, bool or None. -/
def pyContains (remote_state : JsonVal) (p : String) : Except PyErr Bool :=
  match remote_state with
  | .obj kvs => .ok (kvs.any (fun kv => kv.1 = p))
  | .arr xs => .ok (xs.any (fun v => pyEqStr v p))
  | .str s => .ok (charsContain p.data s.data)
  | _ => .error .typeError

/-- Python `v[key]` for a `str` key: dict lookup (raising `KeyError` when
absent) for a dict, `TypeError` for everything else. -/
def pyGetItem (v : JsonVal) (key : String) : Except PyErr JsonVal :=
  match v with
  | .obj kvs =>
    match lookupJson kvs key with
    | some x => .ok x
    | none => .error .keyError
  | _ => .error .typeError

/-- Python `rel_path in local_state` where `local_state` is a real dict with
string keys and `rel_path` is a decoded JSON value: strings are looked up,
other hashable values are simply not present, and unhashable values (lists,
dicts) raise `TypeError`. -/
def pyDictContains (local_state : StateMapping) (k : JsonVal) :
    Except PyErr Bool :=
  match k with
  | .str s => .ok (hasKey local_state s)
  | .arr _ => .error .typeError
  | .obj _ => .error .typeError
  | _ => .ok false

/-- Python `for rel_path in remote_state`: keys of a dict, elements of a
list, characters of a string, `TypeError` otherwise. -/
def pyIterItems : JsonVal → Except PyErr (List JsonVal)
  | .obj kvs => .ok (kvs.map (fun kv => JsonVal.str kv.1))
  | .arr xs => .ok xs
  | .str s => .ok (s.data.map (fun c => JsonVal.str (String.singleton c)))
  | _ => .error .typeError

/-- `deploy_smart.main` step 3's upload decision against the raw decoded
`remote_state`:

    if rel_path not in remote_state: ...
    elif force_full: ...
    elif remote_state[rel_path]['hash'] != info['hash']: ...
-/
def need_upload_json (remote_state : JsonVal) (force_full : Bool)
    (rel_path : String) (info : FileInfo) : Except PyErr Bool := do
  if !(← pyContains remote_state rel_path) then
    pure true
  else if force_full then
    pure true
  else
    let v ← pyGetItem remote_state rel_path
    let h ← pyGetItem v "hash"
    pure (!pyEqStr h info.hash)

/-- `deploy_smart.main` step 3's upload loop against the raw decoded
`remote_state`. -/
def files_to_upload_json (local_state : StateMapping)
    (remote_state : JsonVal) (force_full : Bool) :
    Except PyErr (List String) :=
  match local_state with
  | [] => .ok []
  | (p, info) :: rest => do
    let b ← need_upload_json remote_state force_full p info
    let others ← files_to_upload_json rest remote_state force_full
    pure (if b then p :: others else others)

/-- The deletion loop of `deploy_smart.main` step 4 / `deploy_rsync.main`
step 3 against the raw decoded `remote_state`; the collected items are the
iterated JSON values (later interpolated into the remote path via an
f-string). -/
def files_to_delete_json (local_state : StateMapping)
    (remote_state : JsonVal) : Except PyErr (List JsonVal) := do
  let items ← pyIterItems remote_state
  items.filterM (fun it => do pure !(← pyDictContains local_state it))

/-- Modelled from the spec (§3, §6): a decoded manifest blob is well formed
when it is a JSON object whose every value is an object carrying a string
`"hash"` and an integer `"size"` — the shape `json.dump(local_state, f)`
always writes.  Used to state what "parses as a valid manifest" means;
the scripts themselves never perform this validation. -/
def isValidManifest : JsonVal → Bool
  | .obj kvs =>
    kvs.all (fun kv =>
      match kv.2 with
      | .obj fields =>
        (match lookupJson fields "hash" with
         | some (.str _) => true
         | _ => false)
        && (match lookupJson fields "size" with
            | some (.num _) => true
            | _ => false)
      | _ => false)
  | _ => false

/-- The JSON value `json.dump` writes for a `StateMapping` (step 7 of both
scripts): the new manifest blob's decoded form. -/
def manifestJson (m : StateMapping) : JsonVal :=
  .obj (m.map (fun pi =>
    (pi.1, JsonVal.obj [("hash", .str pi.2.hash), ("size", .num pi.2.size)])))

/-! ## Basic lemmas about the dict model and the plan -/

theorem lookup?_eq_none_iff (m : StateMapping) (p : String) :
    lookup? m p = none ↔ p ∉ keys m := by
  induction m with
  | nil => simp [lookup?, keys]
  | cons kv rest ih =>
    obtain ⟨k, v⟩ := kv
    simp only [lookup?, keys, List.map_cons, List.mem_cons]
    cases h : lookup? rest p with
    | some r =>
      have hmem : p ∈ keys rest := by
        by_contra hc
        simp [ih.mpr hc] at h
      simp only [keys] at hmem
      simp [hmem]
    | none =>
      have hmem : p ∉ keys rest := ih.mp h
      simp only [keys] at hmem
      by_cases hk : k = p
      · simp [hk]
      · simp [hk, hmem, Ne.symm hk]

theorem lookup?_isSome_iff (m : StateMapping) (p : String) :
    (lookup? m p).isSome = true ↔ p ∈ keys m := by
  cases h : lookup? m p with
  | none => simpa [h] using (lookup?_eq_none_iff m p).mp h
  | some r =>
    simp only [h, Option.isSome_some, true_iff]
    by_contra hc
    simp [(lookup?_eq_none_iff m p).mpr hc] at h

theorem hasKey_iff (m : StateMapping) (p : String) :
    hasKey m p = true ↔ p ∈ keys m := by
  simpa [hasKey] using lookup?_isSome_iff m p

theorem mem_of_lookup?_eq_some {m : StateMapping} {p : String} {i : FileInfo}
    (h : lookup? m p = some i) : (p, i) ∈ m := by
  induction m with
  | nil => simp [lookup?] at h
  | cons kv rest ih =>
    obtain ⟨k, v⟩ := kv
    simp only [lookup?] at h
    cases hr : lookup? rest p with
    | some r =>
      rw [hr] at h
      simp only [Option.some.injEq] at h
      exact List.mem_cons_of_mem _ (ih (hr.trans (by rw [h])))
    | none =>
      rw [hr] at h
      by_cases hk : k = p
      · subst hk
        simp at h
        subst h
        exact List.mem_cons_self _ _
      · simp [hk] at h

theorem lookup?_eq_some_of_mem {m : StateMapping} {p : String} {i : FileInfo}
    (hnd : NodupKeys m) (h : (p, i) ∈ m) : lookup? m p = some i := by
  induction m with
  | nil => simp at h
  | cons kv rest ih =>
    obtain ⟨k, v⟩ := kv
    have hcons := List.nodup_cons.mp hnd
    have hnd' : NodupKeys rest := hcons.2
    have hk : k ∉ keys rest := by simpa [keys] using hcons.1
    rcases List.mem_cons.mp h with heq | hm
    · have hp : p = k := congrArg Prod.fst heq
      have hv : i = v := congrArg Prod.snd heq
      subst hp; subst hv
      have hnone : lookup? rest p = none := (lookup?_eq_none_iff _ _).mpr hk
      simp [lookup?, hnone]
    · have := ih hnd' hm
      simp [lookup?, this]

theorem mem_map_fst_filter (l : List (String × FileInfo))
    (c : String × FileInfo → Bool) (p : String) :
    p ∈ (l.filter c).map Prod.fst ↔ ∃ i, (p, i) ∈ l ∧ c (p, i) = true := by
  simp only [List.mem_map, List.mem_filter]
  constructor
  · rintro ⟨⟨q, i⟩, ⟨hm, hc⟩, rfl⟩
    exact ⟨i, hm, hc⟩
  · rintro ⟨i, hm, hc⟩
    exact ⟨(p, i), ⟨hm, hc⟩, rfl⟩

theorem mem_files_to_delete (L M : StateMapping) (p : String) :
    p ∈ files_to_delete L M ↔ p ∈ keys M ∧ hasKey L p = false := by
  rw [files_to_delete, mem_map_fst_filter]
  constructor
  · rintro ⟨i, him, hc⟩
    refine ⟨List.mem_map.mpr ⟨(p, i), him, rfl⟩, by simpa using hc⟩
  · rintro ⟨hm, hc⟩
    obtain ⟨⟨q, i⟩, him, rfl⟩ := List.mem_map.mp hm
    exact ⟨i, him, by simpa using hc⟩

theorem mem_files_to_upload {L : StateMapping} (M : StateMapping)
    (f : Bool) (p : String) (hnd : NodupKeys L) :
    p ∈ files_to_upload L M f ↔
      ∃ i, lookup? L p = some i ∧ need_upload M f p i = true := by
  rw [files_to_upload, mem_map_fst_filter]
  constructor
  · rintro ⟨i, him, hc⟩
    exact ⟨i, lookup?_eq_some_of_mem hnd him, hc⟩
  · rintro ⟨i, hl, hc⟩
    exact ⟨i, mem_of_lookup?_eq_some hl, hc⟩

/-! ## Lemmas about the execution loops -/

namespace DeploySmart

theorem uploadLoop_snd_iff (statOk uploadFails : String → Bool)
    (l : List String) :
    (uploadLoop statOk uploadFails l).2 = true ↔
      ∀ p ∈ l, uploadFails p = false := by
  induction l with
  | nil => simp [uploadLoop]
  | cons p rest ih =>
    by_cases hf : uploadFails p
    · simp [uploadLoop, hf]
    · simp only [uploadLoop, hf, if_neg Bool.false_ne_true]
      simp only [Bool.not_eq_true] at hf
      simpa [hf] using ih

theorem remove_not_mem_uploadLoop (statOk uploadFails : String → Bool)
    (l : List String) (p : String) (b : Bool) :
    SOp.remove p b ∉ (uploadLoop statOk uploadFails l).1 := by
  induction l with
  | nil => simp [uploadLoop]
  | cons q rest ih =>
    by_cases hf : uploadFails q <;>
      cases hs : statOk q <;>
      simp [uploadLoop, hf, hs, ih]

theorem put_mem_uploadLoop {statOk uploadFails : String → Bool}
    {l : List String} {p : String}
    (h : SOp.put p ∈ (uploadLoop statOk uploadFails l).1) : p ∈ l := by
  induction l with
  | nil => simp [uploadLoop] at h
  | cons q rest ih =>
    simp only [uploadLoop] at h
    by_cases hf : uploadFails q
    · rw [if_pos hf] at h
      cases hs : statOk q <;> simp [hs] at h <;>
        (subst h; exact List.mem_cons_self _ _)
    · rw [if_neg hf] at h
      cases hs : statOk q <;> simp [hs] at h <;>
        rcases h with rfl | hm
      · exact List.mem_cons_self _ _
      · exact List.mem_cons_of_mem _ (ih hm)
      · exact List.mem_cons_self _ _
      · exact List.mem_cons_of_mem _ (ih hm)

theorem uploadLoop_append_ok (statOk uploadFails : String → Bool)
    (pre rest : List String) (hpre : ∀ q ∈ pre, uploadFails q = false) :
    uploadLoop statOk uploadFails (pre ++ rest) =
      ((uploadLoop statOk uploadFails pre).1 ++
         (uploadLoop statOk uploadFails rest).1,
       (uploadLoop statOk uploadFails rest).2) := by
  induction pre with
  | nil => simp [uploadLoop]
  | cons q qs ih =>
    have hq : uploadFails q = false := hpre q (List.mem_cons_self _ _)
    have ih' := ih (fun r hr => hpre r (List.mem_cons_of_mem _ hr))
    simp [uploadLoop, hq, ih']

end DeploySmart

namespace DeployRsync

theorem rmBatchLoop_snd_iff (batchFails : List String → Bool)
    (bs : List (List String)) :
    (rmBatchLoop batchFails bs).2 = true ↔
      ∀ b ∈ bs, batchFails b = false := by
  induction bs with
  | nil => simp [rmBatchLoop]
  | cons b rest ih =>
    by_cases hf : batchFails b
    · simp [rmBatchLoop, hf]
    · simp only [rmBatchLoop, hf, if_neg Bool.false_ne_true]
      simp only [Bool.not_eq_true] at hf
      simpa [hf] using ih

theorem rmBatchLoop_all_ok (batchFails : List String → Bool)
    (bs : List (List String)) (h : ∀ b ∈ bs, batchFails b = false) :
    rmBatchLoop batchFails bs = (bs.map ROp.rmBatch, true) := by
  induction bs with
  | nil => simp [rmBatchLoop]
  | cons b rest ih =>
    have hb := h b (List.mem_cons_self _ _)
    have ih' := ih (fun c hc => h c (List.mem_cons_of_mem _ hc))
    simp [rmBatchLoop, hb, ih']

theorem mem_rmBatchLoop {batchFails : List String → Bool}
    {bs : List (List String)} {b : List String}
    (h : ROp.rmBatch b ∈ (rmBatchLoop batchFails bs).1) : b ∈ bs := by
  induction bs with
  | nil => simp [rmBatchLoop] at h
  | cons c rest ih =>
    by_cases hf : batchFails c <;> simp [rmBatchLoop, hf] at h
    · exact h ▸ List.mem_cons_self _ _
    · rcases h with rfl | hm
      · exact List.mem_cons_self _ _
      · exact List.mem_cons_of_mem _ (ih hm)

theorem toBatches_join (l : List String) : (toBatches l).flatten = l := by
  induction l using toBatches.induct with
  | case1 => simp [toBatches]
  | case2 p rest ih =>
    simp only [toBatches, List.flatten_cons, ih]
    simp [List.take_append_drop]

theorem toBatches_mem_length {l : List String} {b : List String}
    (h : b ∈ toBatches l) : 0 < b.length ∧ b.length ≤ batch_size := by
  induction l using toBatches.induct with
  | case1 => simp [toBatches] at h
  | case2 p rest ih =>
    simp only [toBatches, List.mem_cons] at h
    rcases h with rfl | hm
    · constructor
      · simp
      · simp only [List.length_cons, List.length_take]
        have : batch_size = 50 := rfl
        omega
    · exact ih hm

end DeployRsync

/-! ## Claim theorems -/

/-- C2: for local state `L`, remote manifest `M` and the force flag, the
plan satisfies: `p` is uploaded iff `p ∈ L` and (`p ∉ M`, or the recorded
hashes differ, or the force-full flag is set — under which all of `L` is
uploaded); `p` is deleted iff `p ∈ M` and `p ∉ L`; a path in both with equal
hash and no force flag gets no action. -/
theorem diff_correctness (L M : StateMapping) (force : Bool) (p : String)
    (hnd : NodupKeys L) :
    (p ∈ files_to_upload L M force ↔
      (hasKey L p = true ∧
        (force = true ∨ hasKey M p = false ∨
          (lookup? L p).map FileInfo.hash ≠ (lookup? M p).map FileInfo.hash)))
    ∧ (p ∈ files_to_delete L M ↔ (hasKey M p = true ∧ hasKey L p = false))
    ∧ (hasKey L p = true → hasKey M p = true → force = false →
        (lookup? L p).map FileInfo.hash = (lookup? M p).map FileInfo.hash →
        p ∉ files_to_upload L M force ∧ p ∉ files_to_delete L M) := by
  have hdel : p ∈ files_to_delete L M ↔
      (hasKey M p = true ∧ hasKey L p = false) := by
    rw [mem_files_to_delete, hasKey_iff]
  have hup : p ∈ files_to_upload L M force ↔
      (hasKey L p = true ∧
        (force = true ∨ hasKey M p = false ∨
          (lookup? L p).map FileInfo.hash ≠ (lookup? M p).map FileInfo.hash)) := by
    rw [mem_files_to_upload M force p hnd]
    constructor
    · rintro ⟨i, hl, hc⟩
      refine ⟨by simp [hasKey, hl], ?_⟩
      rw [need_upload] at hc
      cases hM : lookup? M p with
      | none =>
        refine Or.inr (Or.inl ?_)
        simp [hasKey, hM]
      | some r =>
        rw [hM] at hc
        simp only [Bool.or_eq_true] at hc
        rcases hc with hc | hc
        · exact Or.inl hc
        · refine Or.inr (Or.inr ?_)
          simp only [hl, hM, Option.map_some]
          simp only [decide_eq_true_eq] at hc
          simp [Ne.symm hc]
    · rintro ⟨hL, hcond⟩
      rw [hasKey] at hL
      cases hl : lookup? L p with
      | none => simp [hl] at hL
      | some i =>
        refine ⟨i, rfl, ?_⟩
        rw [need_upload]
        cases hM : lookup? M p with
        | none => rfl
        | some r =>
          simp only [Bool.or_eq_true, decide_eq_true_eq]
          rcases hcond with hf | hMk | hh
          · exact Or.inl hf
          · simp [hasKey, hM] at hMk
          · refine Or.inr ?_
            rw [hl, hM] at hh
            simp at hh
            exact fun he => hh (he.symm)
  refine ⟨hup, hdel, ?_⟩
  intro hL hM hf hh
  constructor
  · rw [hup]
    rintro ⟨_, hc | hc | hc⟩
    · simp [hf] at hc
    · simp [hM] at hc
    · exact hc hh
  · rw [hdel]
    rintro ⟨_, hc⟩
    simp [hL] at hc

/-- Witness for C2, the spec's own scenario: local `{a.txt: h1, b.txt: h2}`
against manifest `{a.txt: h1, c.txt: h3}` uploads `b.txt` and deletes
`c.txt`. -/
theorem diff_correctness_witness :
    ("b.txt" ∈ files_to_upload
        [("a.txt", ⟨"h1", 1⟩), ("b.txt", ⟨"h2", 2⟩)]
        [("a.txt", ⟨"h1", 1⟩), ("c.txt", ⟨"h3", 3⟩)] false ↔
      (hasKey [("a.txt", ⟨"h1", 1⟩), ("b.txt", ⟨"h2", 2⟩)] "b.txt" = true ∧
        (false = true ∨
          hasKey [("a.txt", ⟨"h1", 1⟩), ("c.txt", ⟨"h3", 3⟩)] "b.txt" = false ∨
          (lookup? [("a.txt", ⟨"h1", 1⟩), ("b.txt", ⟨"h2", 2⟩)] "b.txt").map
              FileInfo.hash ≠
            (lookup? [("a.txt", ⟨"h1", 1⟩), ("c.txt", ⟨"h3", 3⟩)] "b.txt").map
              FileInfo.hash)))
    ∧ ("c.txt" ∈ files_to_delete
        [("a.txt", ⟨"h1", 1⟩), ("b.txt", ⟨"h2", 2⟩)]
        [("a.txt", ⟨"h1", 1⟩), ("c.txt", ⟨"h3", 3⟩)] ↔
      (hasKey [("a.txt", ⟨"h1", 1⟩), ("c.txt", ⟨"h3", 3⟩)] "c.txt" = true ∧
        hasKey [("a.txt", ⟨"h1", 1⟩), ("b.txt", ⟨"h2", 2⟩)] "c.txt" = false)) :=
  ⟨(diff_correctness [("a.txt", ⟨"h1", 1⟩), ("b.txt", ⟨"h2", 2⟩)]
      [("a.txt", ⟨"h1", 1⟩), ("c.txt", ⟨"h3", 3⟩)] false "b.txt"
      (by decide)).1,
   (diff_correctness [("a.txt", ⟨"h1", 1⟩), ("b.txt", ⟨"h2", 2⟩)]
      [("a.txt", ⟨"h1", 1⟩), ("c.txt", ⟨"h3", 3⟩)] false "c.txt"
      (by decide)).2.1⟩

/-- C7: a successful run of `deploy_smart.main` writes exactly its local
state `L` as the new manifest, and the plan of a subsequent run over the
unchanged local state `L` against that manifest is empty: no uploads, no
deletions, and the only remote operation of the second run is rewriting the
(identical) manifest. -/
theorem idempotence (L M : StateMapping) (force : Bool)
    (df so uf : String → Bool) (mpf : Bool) (hnd : NodupKeys L) :
    (∀ m', (DeploySmart.smart_core L M force df so uf mpf).manifest = some m' →
      m' = L)
    ∧ files_to_upload L L false = []
    ∧ files_to_delete L L = []
    ∧ (DeploySmart.smart_core L L false df so uf false).ops =
        [SOp.putManifest] := by
  have hup : files_to_upload L L false = [] := by
    rw [files_to_upload, List.map_eq_nil_iff, List.filter_eq_nil_iff]
    rintro ⟨p, i⟩ hm
    have hl : lookup? L p = some i := lookup?_eq_some_of_mem hnd hm
    simp [need_upload, hl]
  have hdel : files_to_delete L L = [] := by
    rw [files_to_delete, List.map_eq_nil_iff, List.filter_eq_nil_iff]
    rintro ⟨p, i⟩ hm
    have : p ∈ keys L := List.mem_map.mpr ⟨(p, i), hm, rfl⟩
    simp [(hasKey_iff L p).mpr this]
  refine ⟨?_, hup, hdel, ?_⟩
  · intro m' hm'
    rw [DeploySmart.smart_core] at hm'
    by_cases h2 : (DeploySmart.uploadLoop so uf
        (files_to_upload L M force)).2 = true
    · rw [if_pos h2] at hm'
      by_cases hmp : mpf = true
      · simp [hmp] at hm'
      · simp only [Bool.not_eq_true] at hmp
        simp [hmp] at hm'
        exact hm'.symm
    · rw [if_neg h2] at hm'
      simp at hm'
  · rw [DeploySmart.smart_core]
    simp [hup, hdel, DeploySmart.uploadLoop]

/-- Witness for C7 at a one-file local state. -/
theorem idempotence_witness :
    (∀ m', (DeploySmart.smart_core [("a", ⟨"h", 1⟩)] [] false
        (fun _ => false) (fun _ => true) (fun _ => false) false).manifest =
          some m' → m' = [("a", ⟨"h", 1⟩)])
    ∧ files_to_upload [("a", ⟨"h", 1⟩)] [("a", ⟨"h", 1⟩)] false = []
    ∧ files_to_delete [("a", ⟨"h", 1⟩)] [("a", ⟨"h", 1⟩)] = []
    ∧ (DeploySmart.smart_core [("a", ⟨"h", 1⟩)] [("a", ⟨"h", 1⟩)] false
        (fun _ => false) (fun _ => true) (fun _ => false) false).ops =
        [SOp.putManifest] :=
  idempotence [("a", ⟨"h", 1⟩)] [] false
    (fun _ => false) (fun _ => true) (fun _ => false) false (by decide)

/-- C8: the plan is a pure function of the two key→fingerprint mappings and
the force flag — two runs over extensionally equal mappings (whatever
insertion order the filesystem walk produced) plan the same upload set and
the same deletion set. -/
theorem plan_determinism (L₁ L₂ M₁ M₂ : StateMapping) (force : Bool)
    (hnd₁ : NodupKeys L₁) (hnd₂ : NodupKeys L₂)
    (hL : ∀ p, lookup? L₁ p = lookup? L₂ p)
    (hM : ∀ p, lookup? M₁ p = lookup? M₂ p) :
    ∀ p, (p ∈ files_to_upload L₁ M₁ force ↔ p ∈ files_to_upload L₂ M₂ force)
       ∧ (p ∈ files_to_delete L₁ M₁ ↔ p ∈ files_to_delete L₂ M₂) := by
  intro p
  have hneed : ∀ i, need_upload M₁ force p i = need_upload M₂ force p i := by
    intro i
    rw [need_upload, need_upload, hM p]
  constructor
  · rw [mem_files_to_upload M₁ force p hnd₁,
      mem_files_to_upload M₂ force p hnd₂]
    constructor
    · rintro ⟨i, hl, hc⟩
      exact ⟨i, (hL p).symm.trans hl, (hneed i).symm.trans hc⟩
    · rintro ⟨i, hl, hc⟩
      exact ⟨i, (hL p).trans hl, (hneed i).trans hc⟩
  · rw [mem_files_to_delete, mem_files_to_delete,
      ← lookup?_isSome_iff, ← lookup?_isSome_iff, hM p]
    simp [hasKey, hL p]

/-- Witness for C8: the same two-file local mapping inserted in two
different walk orders plans identically. -/
theorem plan_determinism_witness :
    ("a" ∈ files_to_upload [("a", ⟨"h1", 1⟩), ("b", ⟨"h2", 2⟩)]
        [("c", ⟨"h3", 3⟩)] false ↔
      "a" ∈ files_to_upload [("b", ⟨"h2", 2⟩), ("a", ⟨"h1", 1⟩)]
        [("c", ⟨"h3", 3⟩)] false)
    ∧ ("a" ∈ files_to_delete [("a", ⟨"h1", 1⟩), ("b", ⟨"h2", 2⟩)]
        [("c", ⟨"h3", 3⟩)] ↔
      "a" ∈ files_to_delete [("b", ⟨"h2", 2⟩), ("a", ⟨"h1", 1⟩)]
        [("c", ⟨"h3", 3⟩)]) :=
  plan_determinism [("a", ⟨"h1", 1⟩), ("b", ⟨"h2", 2⟩)]
    [("b", ⟨"h2", 2⟩), ("a", ⟨"h1", 1⟩)]
    [("c", ⟨"h3", 3⟩)] [("c", ⟨"h3", 3⟩)] false
    (by decide) (by decide)
    (by
      intro p
      by_cases h1 : "a" = p <;> by_cases h2 : "b" = p
      · exact absurd (h1.trans h2.symm) (by decide)
      all_goals simp [lookup?, h1, h2])
    (fun _ => rfl) "a"

/-- C1: every deletion either backend issues is for a relative path that is
a key of the loaded remote manifest and is absent from the local state; a
remote path outside the manifest is never deleted, whatever the local state
is. -/
theorem deletion_safety :
    (∀ (local_state remote_state : StateMapping) (force : Bool)
        (df so uf : String → Bool) (mpf : Bool) (p : String) (b : Bool),
      SOp.remove p b ∈
          (DeploySmart.smart_core local_state remote_state force
            df so uf mpf).ops →
        p ∈ keys remote_state ∧ hasKey local_state p = false)
    ∧ (∀ (es : List Entry) (local_state remote_state : StateMapping)
        (mk : Bool) (bf : List String → Bool) (rf mf : Bool)
        (batch : List String) (p : String),
      DeployRsync.get_local_files_info (some es) = .ok local_state →
      ROp.rmBatch batch ∈
          (DeployRsync.rsync_run (some es) remote_state mk bf rf mf).ops →
      p ∈ batch →
        p ∈ keys remote_state ∧ hasKey local_state p = false) := by
  constructor
  · intro local_state remote_state force df so uf mpf p b hmem
    rw [DeploySmart.smart_core] at hmem
    have hdel : p ∈ files_to_delete local_state remote_state := by
      have hmap : SOp.remove p b ∈
            (files_to_delete local_state remote_state).map
              (fun q => SOp.remove q (df q)) →
          p ∈ files_to_delete local_state remote_state := by
        intro hm
        obtain ⟨q, hq, heq⟩ := List.mem_map.mp hm
        injection heq with h1 h2
        exact h1 ▸ hq
      split at hmem
      · simp only [List.mem_append, List.mem_singleton] at hmem
        rcases hmem with (hm | hm) | hm
        · exact hmap hm
        · exact absurd hm
            (DeploySmart.remove_not_mem_uploadLoop so uf _ p b)
        · simp at hm
      · simp only [List.mem_append] at hmem
        rcases hmem with hm | hm
        · exact hmap hm
        · exact absurd hm
            (DeploySmart.remove_not_mem_uploadLoop so uf _ p b)
    exact (mem_files_to_delete _ _ p).mp hdel
  · intro es local_state remote_state mk bf rf mf batch p hloc hmem hp
    have hl : local_state =
        (DeployRsync.walkEntries "" es).filter
          (fun pi => pi.1 ≠ MANIFEST_FILENAME) := by
      rw [DeployRsync.get_local_files_info] at hloc
      cases hloc
      rfl
    rw [DeployRsync.rsync_run] at hmem
    simp only [DeployRsync.get_local_files_info] at hmem
    rw [← hl] at hmem
    have hbatch : batch ∈ DeployRsync.toBatches
        (files_to_delete local_state remote_state) := by
      split at hmem
      · simp at hmem
      · split at hmem
        · simp only [List.mem_cons] at hmem
          rcases hmem with hm | hm | hm
          · simp at hm
          · simp at hm
          · exact DeployRsync.mem_rmBatchLoop hm
        · split at hmem
          · simp only [List.cons_append, List.mem_cons, List.mem_append,
              List.mem_singleton] at hmem
            rcases hmem with hm | hm | hm | hm
            · simp at hm
            · simp at hm
            · exact DeployRsync.mem_rmBatchLoop hm
            · simp at hm
          · split at hmem <;>
            · simp only [List.cons_append, List.mem_cons, List.mem_append,
                List.mem_cons, List.mem_singleton] at hmem
              rcases hmem with hm | hm | hm | hm | hm
              · simp at hm
              · simp at hm
              · exact DeployRsync.mem_rmBatchLoop hm
              · simp at hm
              · simp at hm
    have hpd : p ∈ files_to_delete local_state remote_state := by
      rw [← DeployRsync.toBatches_join
        (files_to_delete local_state remote_state)]
      exact List.mem_flatten.mpr ⟨batch, hbatch, hp⟩
    exact (mem_files_to_delete _ _ p).mp hpd

theorem putManifest_not_mem_uploadLoop (statOk uploadFails : String → Bool)
    (l : List String) :
    SOp.putManifest ∉ (DeploySmart.uploadLoop statOk uploadFails l).1 := by
  induction l with
  | nil => simp [DeploySmart.uploadLoop]
  | cons q rest ih =>
    by_cases hf : uploadFails q <;> cases hs : statOk q <;>
      simp [DeploySmart.uploadLoop, hf, hs, ih]

theorem putManifest_not_mem_delOps (df : String → Bool) (dels : List String) :
    SOp.putManifest ∉ dels.map (fun q => SOp.remove q (df q)) := by
  intro hm
  obtain ⟨q, -, heq⟩ := List.mem_map.mp hm
  exact SOp.noConfusion heq

theorem rsyncManifest_not_mem_rmBatchLoop (bf : List String → Bool)
    (bs : List (List String)) :
    ROp.rsyncManifest ∉ (DeployRsync.rmBatchLoop bf bs).1 := by
  induction bs with
  | nil => simp [DeployRsync.rmBatchLoop]
  | cons b rest ih =>
    by_cases hf : bf b <;> simp [DeployRsync.rmBatchLoop, hf, ih]

/-- C4: an upload failure is fatal, aborts the run at that file, and
prevents the manifest write, so the old manifest stays authoritative; the
manifest is written only when every planned upload succeeded, and then as
the very last remote operation.  Likewise for the bulk backend's single
`rsync` transfer. -/
theorem commit_ordering :
    (∀ (L M : StateMapping) (force : Bool) (df so uf : String → Bool)
        (mpf : Bool),
      ((∃ p ∈ files_to_upload L M force, uf p = true) →
        (DeploySmart.smart_core L M force df so uf mpf).ok = false ∧
        (DeploySmart.smart_core L M force df so uf mpf).manifest = none ∧
        SOp.putManifest ∉ (DeploySmart.smart_core L M force df so uf mpf).ops)
      ∧ ((DeploySmart.smart_core L M force df so uf mpf).manifest.isSome =
            true →
          (∀ p ∈ files_to_upload L M force, uf p = false) ∧
          (DeploySmart.smart_core L M force df so uf mpf).ops.getLast? =
            some SOp.putManifest)
      ∧ (∀ pre p post, files_to_upload L M force = pre ++ p :: post →
          (∀ q ∈ pre, uf q = false) → uf p = true →
          (DeploySmart.smart_core L M force df so uf mpf).ops =
            (files_to_delete L M).map (fun q => SOp.remove q (df q)) ++
              ((DeploySmart.uploadLoop so uf pre).1 ++
                ((if so p then [] else [SOp.mkdirs p]) ++ [SOp.put p]))))
    ∧ (∀ (fs : Option (List Entry)) (M : StateMapping) (mk : Bool)
        (bf : List String → Bool) (rf mf : Bool),
      (rf = true →
        (DeployRsync.rsync_run fs M mk bf rf mf).ok = false ∧
        (DeployRsync.rsync_run fs M mk bf rf mf).manifest = none ∧
        ROp.rsyncManifest ∉ (DeployRsync.rsync_run fs M mk bf rf mf).ops)
      ∧ ((DeployRsync.rsync_run fs M mk bf rf mf).manifest.isSome = true →
          rf = false ∧ mf = false ∧
          (DeployRsync.rsync_run fs M mk bf rf mf).ops.getLast? =
            some ROp.rsyncManifest)) := by
  constructor
  · intro L M force df so uf mpf
    have hfail : (∃ p ∈ files_to_upload L M force, uf p = true) →
        (DeploySmart.uploadLoop so uf (files_to_upload L M force)).2 =
          false := by
      rintro ⟨p, hp, hf⟩
      by_contra hc
      simp only [Bool.not_eq_false] at hc
      have := (DeploySmart.uploadLoop_snd_iff so uf _).mp hc p hp
      simp [this] at hf
    refine ⟨?_, ?_, ?_⟩
    · intro hex
      rw [DeploySmart.smart_core]
      rw [if_neg (by simp [hfail hex])]
      refine ⟨rfl, rfl, ?_⟩
      simp only [List.mem_append]
      rintro (hm | hm)
      · exact putManifest_not_mem_delOps df _ hm
      · exact putManifest_not_mem_uploadLoop so uf _ hm
    · intro hsome
      rw [DeploySmart.smart_core] at hsome ⊢
      by_cases h2 : (DeploySmart.uploadLoop so uf
          (files_to_upload L M force)).2 = true
      · rw [if_pos h2] at hsome ⊢
        refine ⟨(DeploySmart.uploadLoop_snd_iff so uf _).mp h2, ?_⟩
        simp only [← List.append_assoc]
        exact List.getLast?_concat _
      · rw [if_neg h2] at hsome
        simp at hsome
    · intro pre p post hsplit hpre hp
      rw [DeploySmart.smart_core]
      have hloop := DeploySmart.uploadLoop_append_ok so uf pre (p :: post) hpre
      rw [hsplit, hloop]
      have hpp : DeploySmart.uploadLoop so uf (p :: post) =
          ((if so p then [] else [SOp.mkdirs p]) ++ [SOp.put p], false) := by
        rw [DeploySmart.uploadLoop]
        simp [hp]
      rw [hpp]
      simp
  · intro fs M mk bf rf mf
    cases fs with
    | none =>
      constructor
      · intro _
        refine ⟨rfl, rfl, by simp [DeployRsync.rsync_run]⟩
      · intro hsome
        simp [DeployRsync.rsync_run] at hsome
    | some es =>
      rw [DeployRsync.rsync_run]
      simp only [DeployRsync.get_local_files_info]
      constructor
      · intro hrf
        subst hrf
        split
        · exact ⟨rfl, rfl, by simp⟩
        · split
          · refine ⟨rfl, rfl, ?_⟩
            simp only [List.mem_cons]
            rintro (hm | hm | hm)
            · simp at hm
            · simp at hm
            · exact rsyncManifest_not_mem_rmBatchLoop bf _ hm
          · rw [if_pos rfl]
            refine ⟨rfl, rfl, ?_⟩
            simp only [List.cons_append, List.mem_cons, List.mem_append,
              List.mem_singleton]
            rintro (hm | hm | hm | hm)
            · simp at hm
            · simp at hm
            · exact rsyncManifest_not_mem_rmBatchLoop bf _ hm
            · simp at hm
      · intro hsome
        by_cases hmk : mk = true
        · rw [if_pos hmk] at hsome
          simp at hsome
        · rw [if_neg hmk] at hsome ⊢
          by_cases hrm : (DeployRsync.rmBatchLoop bf (DeployRsync.toBatches
              (files_to_delete ((DeployRsync.walkEntries "" es).filter
                (fun pi => pi.1 ≠ MANIFEST_FILENAME)) M))).2 = true
          · simp only [hrm, Bool.not_true, Bool.false_eq_true, if_false]
              at hsome ⊢
            by_cases hrf : rf = true
            · rw [if_pos hrf] at hsome
              simp at hsome
            · rw [if_neg hrf] at hsome ⊢
              by_cases hmf : mf = true
              · rw [if_pos hmf] at hsome
                simp at hsome
              · rw [if_neg hmf] at hsome ⊢
                simp only [Bool.not_eq_true] at hrf hmf
                refine ⟨hrf, hmf, ?_⟩
                rw [show ROp.mkdirBase :: ROp.catManifest ::
                    (DeployRsync.rmBatchLoop bf (DeployRsync.toBatches
                      (files_to_delete ((DeployRsync.walkEntries "" es).filter
                        (fun pi => pi.1 ≠ MANIFEST_FILENAME)) M))).1 ++
                    [ROp.rsyncAll, ROp.rsyncManifest] =
                    (([ROp.mkdirBase, ROp.catManifest] ++
                      (DeployRsync.rmBatchLoop bf (DeployRsync.toBatches
                        (files_to_delete
                          ((DeployRsync.walkEntries "" es).filter
                            (fun pi => pi.1 ≠ MANIFEST_FILENAME)) M))).1 ++
                      [ROp.rsyncAll]) ++ [ROp.rsyncManifest]) from by simp]
                exact List.getLast?_concat _
          · simp only [Bool.not_eq_true] at hrm
            simp only [hrm, Bool.not_false, if_true] at hsome
            simp at hsome

/-- Witness for C4: a one-file plan whose upload fails yields a fatal run
with no manifest write. -/
theorem commit_ordering_witness :
    (DeploySmart.smart_core [("a", ⟨"h", 1⟩)] [] false
        (fun _ => false) (fun _ => true) (fun _ => true) false).ok = false ∧
    (DeploySmart.smart_core [("a", ⟨"h", 1⟩)] [] false
        (fun _ => false) (fun _ => true) (fun _ => true) false).manifest =
      none ∧
    SOp.putManifest ∉
      (DeploySmart.smart_core [("a", ⟨"h", 1⟩)] [] false
        (fun _ => false) (fun _ => true) (fun _ => true) false).ops :=
  (commit_ordering.1 [("a", ⟨"h", 1⟩)] [] false
      (fun _ => false) (fun _ => true) (fun _ => true) false).1
    ⟨"a", by decide, rfl⟩

theorem rsyncAll_not_mem_rmBatchLoop (bf : List String → Bool)
    (bs : List (List String)) :
    ROp.rsyncAll ∉ (DeployRsync.rmBatchLoop bf bs).1 := by
  induction bs with
  | nil => simp [DeployRsync.rmBatchLoop]
  | cons b rest ih =>
    by_cases hf : bf b <;> simp [DeployRsync.rmBatchLoop, hf, ih]

/-- C6: the direct-API backend attempts every planned deletion — the paths
removed are exactly the plan, and per-path failures change neither the
success of the run nor the manifest write; the bulk backend splits the plan
into batches of at most 50 paths covering it exactly, issues one `rm`
command per batch when none fails, and treats any failing batch as fatal
(no transfer, no manifest). -/
theorem deletion_tolerance :
    (∀ (L M : StateMapping) (force : Bool) (df df' so uf : String → Bool)
        (mpf : Bool),
      ((DeploySmart.smart_core L M force df so uf mpf).ops.filterMap
          (fun o => match o with
            | SOp.remove q _ => some q
            | _ => none) = files_to_delete L M)
      ∧ (DeploySmart.smart_core L M force df so uf mpf).ok =
          (DeploySmart.smart_core L M force df' so uf mpf).ok
      ∧ (DeploySmart.smart_core L M force df so uf mpf).manifest =
          (DeploySmart.smart_core L M force df' so uf mpf).manifest)
    ∧ (∀ l : List String,
      (DeployRsync.toBatches l).flatten = l
      ∧ ∀ b ∈ DeployRsync.toBatches l,
          0 < b.length ∧ b.length ≤ DeployRsync.batch_size)
    ∧ (∀ (es : List Entry) (L M : StateMapping) (mk : Bool)
        (bf : List String → Bool) (rf mf : Bool),
      DeployRsync.get_local_files_info (some es) = .ok L →
      ((∀ b ∈ DeployRsync.toBatches (files_to_delete L M), bf b = false) →
        DeployRsync.rmBatchLoop bf (DeployRsync.toBatches
            (files_to_delete L M)) =
          ((DeployRsync.toBatches (files_to_delete L M)).map ROp.rmBatch,
            true))
      ∧ ((∃ b ∈ DeployRsync.toBatches (files_to_delete L M), bf b = true) →
        (DeployRsync.rsync_run (some es) M mk bf rf mf).ok = false ∧
        (DeployRsync.rsync_run (some es) M mk bf rf mf).manifest = none ∧
        ROp.rsyncAll ∉ (DeployRsync.rsync_run (some es) M mk bf rf mf).ops)) := by
  refine ⟨?_, ?_, ?_⟩
  · intro L M force df df' so uf mpf
    have hfm : ∀ (dels : List String),
        (dels.map (fun q => SOp.remove q (df q))).filterMap
          (fun o => match o with
            | SOp.remove q _ => some q
            | _ => none) = dels := by
      intro dels
      induction dels with
      | nil => rfl
      | cons q rest ih => simp [ih]
    have hup : ∀ (l : List String),
        (DeploySmart.uploadLoop so uf l).1.filterMap
          (fun o => match o with
            | SOp.remove q _ => some q
            | _ => none) = [] := by
      intro l
      rw [List.filterMap_eq_nil_iff]
      intro o ho
      match o with
      | SOp.remove q b =>
        exact absurd ho (DeploySmart.remove_not_mem_uploadLoop so uf l q b)
      | SOp.mkdirs q => rfl
      | SOp.put q => rfl
      | SOp.putManifest => rfl
    refine ⟨?_, ?_, ?_⟩
    · rw [DeploySmart.smart_core]
      split
      · simp [List.filterMap_append, hfm, hup]
      · simp [List.filterMap_append, hfm, hup]
    · rw [DeploySmart.smart_core, DeploySmart.smart_core]
      split <;> rfl
    · rw [DeploySmart.smart_core, DeploySmart.smart_core]
      split <;> rfl
  · intro l
    exact ⟨DeployRsync.toBatches_join l,
      fun b hb => DeployRsync.toBatches_mem_length hb⟩
  · intro es L M mk bf rf mf hloc
    have hl : L = (DeployRsync.walkEntries "" es).filter
        (fun pi => pi.1 ≠ MANIFEST_FILENAME) := by
      rw [DeployRsync.get_local_files_info] at hloc
      cases hloc
      rfl
    refine ⟨fun hok => DeployRsync.rmBatchLoop_all_ok bf _ hok, ?_⟩
    rintro ⟨b, hb, hfb⟩
    have hrm : (DeployRsync.rmBatchLoop bf (DeployRsync.toBatches
        (files_to_delete L M))).2 = false := by
      by_contra hc
      simp only [Bool.not_eq_false] at hc
      have := (DeployRsync.rmBatchLoop_snd_iff bf _).mp hc b hb
      simp [this] at hfb
    rw [DeployRsync.rsync_run]
    simp only [DeployRsync.get_local_files_info]
    rw [← hl]
    by_cases hmk : mk = true
    · rw [if_pos hmk]
      exact ⟨rfl, rfl, by simp⟩
    · rw [if_neg hmk]
      simp only [hrm, Bool.not_false, if_true]
      refine ⟨by simp, by simp, ?_⟩
      simp only [List.mem_cons]
      rintro (hm | hm | hm)
      · simp at hm
      · simp at hm
      · exact rsyncAll_not_mem_rmBatchLoop bf _ hm

/-- Witness for C6: a failing delete batch makes the bulk run fatal before
the transfer step. -/
theorem deletion_tolerance_witness :
    (DeployRsync.rsync_run (some []) [("x", ⟨"hx", 1⟩)] false
        (fun _ => true) false false).ok = false ∧
    (DeployRsync.rsync_run (some []) [("x", ⟨"hx", 1⟩)] false
        (fun _ => true) false false).manifest = none ∧
    ROp.rsyncAll ∉
      (DeployRsync.rsync_run (some []) [("x", ⟨"hx", 1⟩)] false
        (fun _ => true) false false).ops := by
  have h : files_to_delete [] [("x", ⟨"hx", 1⟩)] = ["x"] := by decide
  refine (deletion_tolerance.2.2 [] [] [("x", ⟨"hx", 1⟩)] false
      (fun _ => true) false false rfl).2 ⟨["x"], ?_, rfl⟩
  rw [h, DeployRsync.toBatches]
  simp

/-- Witness for C1: against manifest `{x}` and an empty local state, the
direct-API backend's single issued deletion is for `x`, which is in the
manifest and not local. -/
theorem deletion_safety_witness :
    "x" ∈ keys [("x", ⟨"hx", 1⟩)] ∧ hasKey [] "x" = false :=
  deletion_safety.1 [] [("x", ⟨"hx", 1⟩)] false (fun _ => false)
    (fun _ => true) (fun _ => false) false "x" false (by decide)

/-- C3 (divergence): the bulk-command backend aborts with no remote
operation at all when the local build tree is missing, but the direct-API
backend's `get_local_files_info` has no existence check — `os.walk` over the
missing directory yields an empty local state, and the run then deletes
every path of the remote manifest and commits an empty manifest,
successfully.  Evaluated at the concrete manifest `{a.txt, b.txt}`. -/
theorem source_missing_divergence :
    (∀ (remote_state : StateMapping) (mk : Bool) (bf : List String → Bool)
        (rf mf : Bool),
      (DeployRsync.rsync_run none remote_state mk bf rf mf).ops = [] ∧
      (DeployRsync.rsync_run none remote_state mk bf rf mf).ok = false)
    ∧ (DeploySmart.smart_run none
        [("a.txt", ⟨"h1", 1⟩), ("b.txt", ⟨"h2", 2⟩)] false
        (fun _ => false) (fun _ => true) (fun _ => false) false).ops =
        [SOp.remove "a.txt" false, SOp.remove "b.txt" false,
          SOp.putManifest]
    ∧ (DeploySmart.smart_run none
        [("a.txt", ⟨"h1", 1⟩), ("b.txt", ⟨"h2", 2⟩)] false
        (fun _ => false) (fun _ => true) (fun _ => false) false).ok = true
    ∧ (DeploySmart.smart_run none
        [("a.txt", ⟨"h1", 1⟩), ("b.txt", ⟨"h2", 2⟩)] false
        (fun _ => false) (fun _ => true) (fun _ => false) false).manifest =
        some [] := by
  refine ⟨fun remote_state mk bf rf mf => ⟨rfl, rfl⟩, ?_, ?_, ?_⟩ <;> decide

/-- C5 (counterexample): the blob content `["x"]` is syntactically valid
JSON but not a valid manifest; the scripts use it as `remote_state`
unchecked, so with an empty local state the deletion loop collects `"x"`
(a deletion is issued for it), unlike a missing manifest, which deletes
nothing. -/
theorem corrupt_manifest_counterexample :
    isValidManifest (JsonVal.arr [JsonVal.str "x"]) = false
    ∧ smart_load_remote (some (some (JsonVal.arr [JsonVal.str "x"]))) =
        .ok (JsonVal.arr [JsonVal.str "x"])
    ∧ files_to_delete_json [] (JsonVal.arr [JsonVal.str "x"]) =
        .ok [JsonVal.str "x"]
    ∧ smart_load_remote none = .ok (JsonVal.obj [])
    ∧ files_to_delete_json [] (JsonVal.obj []) = .ok [] :=
  ⟨rfl, rfl, rfl, rfl, rfl⟩

/-- C5 (amended): a manifest blob that fails JSON *parsing* is treated
exactly like a missing one — the prior state degrades to the empty mapping,
against which the plan uploads every local file, deletes nothing, and
raises no error. -/
theorem corrupt_manifest_amended (local_state : StateMapping)
    (force : Bool) :
    smart_load_remote (some none) = smart_load_remote none
    ∧ smart_load_remote none = .ok (JsonVal.obj [])
    ∧ files_to_upload_json local_state (JsonVal.obj []) force =
        .ok (keys local_state)
    ∧ files_to_delete_json local_state (JsonVal.obj []) = .ok [] := by
  refine ⟨rfl, rfl, ?_, rfl⟩
  induction local_state with
  | nil => rfl
  | cons pi rest ih =>
    obtain ⟨p, info⟩ := pi
    have h1 : need_upload_json (JsonVal.obj []) force p info = .ok true := rfl
    simp only [files_to_upload_json, h1, ih, keys]
    rfl

/-- C9: a status line is emitted iff the transfer is complete
(`transferred == total`, unconditionally) or more than 5 seconds have
passed since the last emission; the guarded divisions make the callback
total — with a zero total the percentage is 0 and with no elapsed time the
speed is 0 — and a silent invocation leaves the closure state unchanged
while an emitting one moves `last_log_time` to the current clock. -/
theorem progress_reporting (st : CallbackState) (transferred total : Nat)
    (now : ℚ) :
    ((progress_callback st transferred total now).1.isSome = true ↔
      (transferred = total ∨ now - st.last_log_time > 5))
    ∧ (total = 0 →
        ∀ line ∈ (progress_callback st transferred total now).1,
          line.percentage = 0)
    ∧ (now - st.start_time ≤ 0 →
        ∀ line ∈ (progress_callback st transferred total now).1,
          line.speed = 0)
    ∧ ((progress_callback st transferred total now).1 = none →
        (progress_callback st transferred total now).2 = st)
    ∧ ((progress_callback st transferred total now).1.isSome = true →
        (progress_callback st transferred total now).2 =
          ⟨st.start_time, now⟩) := by
  rw [progress_callback]
  split
  · rename_i hcond
    refine ⟨by simp [hcond, Or.comm]; tauto, ?_, ?_, by simp, fun _ => rfl⟩
    · intro h0 line hline
      simp only [Option.mem_def, Option.some.injEq] at hline
      subst hline
      simp [h0]
    · intro hel line hline
      simp only [Option.mem_def, Option.some.injEq] at hline
      subst hline
      simp [not_lt.mpr hel]
  · rename_i hcond
    push_neg at hcond
    refine ⟨?_, by simp, by simp, fun _ => rfl, by simp⟩
    simp only [Option.isSome_none, Bool.false_eq_true, false_iff]
    rintro (h | h)
    · exact hcond.2 h
    · exact absurd h (not_lt.mpr hcond.1)

/-- Witness for C9: on completion (`transferred == total`) a line is
emitted even though no time has elapsed. -/
theorem progress_reporting_witness :
    (progress_callback ⟨0, 0⟩ 5 5 0).1.isSome = true :=
  (progress_reporting ⟨0, 0⟩ 5 5 0).1.mpr (Or.inl rfl)

mutual

theorem walkEntry_eq : ∀ (pre : String) (e : Entry),
    DeploySmart.walkEntry pre e = DeployRsync.walkEntry pre e
  | _, .file _ _ _ => rfl
  | pre, .dir n es => by
    rw [DeploySmart.walkEntry, DeployRsync.walkEntry]
    exact walkEntries_eq (pre ++ n ++ "/") es

theorem walkEntries_eq : ∀ (pre : String) (es : List Entry),
    DeploySmart.walkEntries pre es = DeployRsync.walkEntries pre es
  | _, [] => rfl
  | pre, e :: es => by
    rw [DeploySmart.walkEntries, DeployRsync.walkEntries]
    rw [walkEntry_eq pre e, walkEntries_eq pre es]

end

/-- C10: over any existing local build tree the two scripts' fingerprinters
agree exactly — same relative keys ('/'-separated, root-level manifest file
excluded) and, per key, the same content digest and byte size. -/
theorem fingerprinter_equivalence (es : List Entry) :
    DeployRsync.get_local_files_info (some es) =
      Except.ok (DeploySmart.get_local_files_info (some es)) := by
  rw [DeployRsync.get_local_files_info, DeploySmart.get_local_files_info]
  rw [walkEntries_eq]
